import Mathlib

/-!
Verification of the `ZC_VaibCoder` repository: a task-storing chat bot
(`VpB06/bot.py`) and a CSV-to-PDF batch merge tool (`pdf_generator.py`).
The Python source is shallowly embedded: the SQLite `tasks` table becomes an
explicit list of rows, the per-user dictionaries become finite maps
(functions into `Option`), handlers become state-passing functions, and the
batch tool's string and float pipelines become executable Lean functions
(IEEE binary64 arithmetic is modelled exactly by integer fractions, read
back into `ℚ` for the statements).
-/

namespace VpB06

/-- A row of the SQLite table `tasks(id, text, user, created_at, status,
category)` created by `init_db` in `bot.py`. -/
structure Task where
  id : Nat
  text : String
  user : Int
  created_at : String
  status : String
  category : String
deriving DecidableEq, Repr

/-- The `tasks` table together with the `AUTOINCREMENT` counter for the
primary key `id` (SQLite starts at 1 and hands out strictly increasing ids). -/
structure DB where
  rows : List Task
  nextId : Nat
deriving DecidableEq, Repr

/-- The freshly created database of `init_db`: empty table, next id 1. -/
def emptyDB : DB := ⟨[], 1⟩

/-- `add_task(text, user_id, status, category)` from `bot.py`:
`INSERT INTO tasks(text, user, created_at, status, category)`.
`created_at` is produced by the external clock
(`datetime.now(timezone.utc).isoformat()`) and is passed in explicitly. -/
def add_task (text : String) (user_id : Int) (status : String)
    (category : String) (created_at : String) (db : DB) : DB :=
  { rows := db.rows ++
      [{ id := db.nextId, text := text, user := user_id,
         created_at := created_at, status := status, category := category }],
    nextId := db.nextId + 1 }

/-- Insertion step of the ascending-id sort used to model `ORDER BY id`. -/
def insertById (t : Task) : List Task → List Task
  | [] => [t]
  | s :: rest => if t.id ≤ s.id then t :: s :: rest else s :: insertById t rest

/-- Sort a list of rows by ascending `id`, modelling SQLite's `ORDER BY id`. -/
def sortById : List Task → List Task
  | [] => []
  | t :: rest => insertById t (sortById rest)

/-- `get_tasks(user_id)` from `bot.py`:
`SELECT id, text, created_at, status, category FROM tasks WHERE user = ?
ORDER BY id`. -/
def get_tasks (user_id : Int) (db : DB) : List Task :=
  sortById (db.rows.filter (fun r => r.user == user_id))

/-- `get_task(task_id, user_id)` from `bot.py`:
`SELECT ... FROM tasks WHERE id = ? AND user = ?` with `fetchone()`, which
yields the first matching row or `None`. -/
def get_task (task_id : Nat) (user_id : Int) (db : DB) : Option Task :=
  db.rows.find? (fun r => r.id == task_id && r.user == user_id)

/-- `update_task(task_id, user_id, status=None, category=None)` from
`bot.py`: builds `SET` clauses only for the supplied fields and runs
`UPDATE tasks SET ... WHERE id = ? AND user = ?`; when neither field is
supplied (`if updates:` false) no statement is executed at all. -/
def update_task (task_id : Nat) (user_id : Int)
    (status : Option String) (category : Option String) (db : DB) : DB :=
  if status = none ∧ category = none then db
  else
    { db with rows := db.rows.map (fun r =>
        if r.id == task_id && r.user == user_id then
          { r with status := status.getD r.status,
                   category := category.getD r.category }
        else r) }

/-- One call of `add_task` as an event: the caller-chosen fields plus the
externally supplied creation timestamp. -/
structure AddEv where
  text : String
  user : Int
  status : String
  category : String
  created_at : String
deriving DecidableEq, Repr

/-- The row that an add event receives when it is assigned id `n`. -/
def mkTask (n : Nat) (e : AddEv) : Task :=
  { id := n, text := e.text, user := e.user, created_at := e.created_at,
    status := e.status, category := e.category }

/-- Run a sequence of `add_task` calls against a database. -/
def runAdds (evs : List AddEv) (db : DB) : DB :=
  evs.foldl (fun d e => add_task e.text e.user e.status e.category e.created_at d) db

/-- The rows produced by a sequence of adds when ids start at `n`. -/
def buildRows : Nat → List AddEv → List Task
  | _, [] => []
  | n, e :: es => mkTask n e :: buildRows (n + 1) es

/-- Caller-visible content of a stored row (everything but the assigned id). -/
def projTask (r : Task) : String × Int × String × String × String :=
  (r.text, r.user, r.created_at, r.status, r.category)

/-- Caller-visible content of an add event. -/
def projEv (e : AddEv) : String × Int × String × String × String :=
  (e.text, e.user, e.created_at, e.status, e.category)

/-! ### String primitives used by the conversation layer

Kernel-computable models of the Python string operations the handlers use
(`str.split`, `str.strip`, `str.replace(..., 1)`, `int(...)`). -/

/-- Python whitespace as consumed by `str.strip()` (ASCII range). -/
def isPySpace (c : Char) : Bool :=
  c == ' ' || c == '\t' || c == '\n' || c == '\r' || c == '\x0b' || c == '\x0c'

/-- Python `str.strip()` on the character list. -/
def pyStripL (l : List Char) : List Char :=
  ((l.dropWhile isPySpace).reverse.dropWhile isPySpace).reverse

/-- Python `str.strip()`. -/
def pyStrip (s : String) : String := ⟨pyStripL s.data⟩

/-- Split at the first occurrence of the pattern `sep`: `some (pre, post)`
with the occurrence removed, or `none` when `sep` does not occur. -/
def breakOn (sep : List Char) : List Char → Option (List Char × List Char)
  | [] => if sep.isEmpty then some ([], []) else none
  | c :: rest =>
      if sep.isPrefixOf (c :: rest) then some ([], (c :: rest).drop sep.length)
      else (breakOn sep rest).map (fun p => (c :: p.1, p.2))

/-- Fuel-driven splitting on a separator, as in Python `str.split(sep)`. -/
def splitSepF (sep : List Char) : Nat → List Char → List (List Char)
  | 0, s => [s]
  | fuel + 1, s =>
      match breakOn sep s with
      | none => [s]
      | some (pre, post) => pre :: splitSepF sep fuel post

/-- Python `s.split(sep)` for a nonempty separator; fuel `s.length + 1`
always suffices because every split consumes at least one character. -/
def pySplit (sep : String) (s : String) : List String :=
  (splitSepF sep.data (s.data.length + 1) s.data).map (fun l => ⟨l⟩)

/-- Python `s.replace(old, "", 1)`: drop the first occurrence of `old`. -/
def pyRemoveFirst (old : String) (s : String) : String :=
  match breakOn old.data s.data with
  | none => s
  | some (pre, post) => ⟨pre ++ post⟩

/-- The task text extracted by `cmd_add`:
`message.text.replace("/add", "", 1).strip()`. -/
def extractAddText (msgText : String) : String :=
  pyStrip (pyRemoveFirst "/add" msgText)

/-- Accumulator pass of decimal parsing; fails on a non-digit. -/
def parseDigitsAux : Nat → List Char → Option Nat
  | acc, [] => some acc
  | acc, c :: rest =>
      if c.isDigit then parseDigitsAux (10 * acc + (c.toNat - 48)) rest else none

/-- Numeric value of a nonempty all-digit character list. -/
def parseDigits : List Char → Option Nat
  | [] => none
  | l => parseDigitsAux 0 l

/-- Python `int(s)` restricted to an optional sign followed by decimal
digits after stripping surrounding whitespace — the only shapes the bot
ever parses (the user id embedded in callback data). -/
def pyInt? (s : String) : Option Int :=
  match pyStripL s.data with
  | '-' :: rest => (parseDigits rest).map (fun n => -(n : Int))
  | '+' :: rest => (parseDigits rest).map (fun n => (n : Int))
  | l => (parseDigits l).map (fun n => (n : Int))

/-! ### Conversation state and handlers -/

/-- A Python dict keyed by the user id, as a finite map. -/
abbrev UMap (α : Type) := Int → Option α

/-- `d.pop(u, None)`: remove the entry for `u`. -/
def popm {α : Type} (m : UMap α) (u : Int) : UMap α :=
  fun v => if v = u then none else m v

/-- `d[u] = a`: set the entry for `u`. -/
def setm {α : Type} (m : UMap α) (u : Int) (a : α) : UMap α :=
  fun v => if v = u then some a else m v

/-- A value of the `user_states` dictionary in `bot.py`: the strings
`"waiting_for_task"` and `"selecting_status"`, or the draft dict
`{"status": ..., "text": ...}` built once a status has been chosen. -/
inductive UserState where
  | waiting_for_task
  | selecting_status
  | draftReady (status : String) (text : String)
deriving DecidableEq, Repr

/-- The user-visible replies the modelled handlers send (each constructor
tags one distinct outgoing message of `bot.py`). -/
inductive Reply where
  | startHelp
  | needTaskText
  | chooseStatus (text : String)
  | enterText
  | noTasks
  | taskList (tasks : List Task)
  | noTasksEdit
  | editList (tasks : List Task)
  | noTasksExport
  | csvSent
  | cancelled
  | notYourTask
  | textNotFound
  | chooseCategory (status : String)
  | dataNotFound
  | taskAdded (text status category : String)
deriving DecidableEq, Repr

/-- The bot's mutable state: the dictionaries `user_states` and
`pending_tasks` plus the `tasks` table. -/
structure BotState where
  user_states : UMap UserState
  pending_tasks : UMap String
  db : DB

/-- `/start` (`cmd_start`): sends the help text; touches no state. -/
def cmd_start (_u : Int) (st : BotState) : BotState × Reply :=
  (st, .startHelp)

/-- `/add <text>` (`cmd_add`): pops any pending text, extracts the inline
text, and on success stores the draft and enters status selection. -/
def cmd_add (u : Int) (msgText : String) (st : BotState) : BotState × Reply :=
  let pending := popm st.pending_tasks u
  let task_text := extractAddText msgText
  if task_text = "" then
    ({ st with pending_tasks := pending }, .needTaskText)
  else
    ({ st with pending_tasks := setm pending u task_text,
               user_states := setm st.user_states u .selecting_status },
     .chooseStatus task_text)

/-- The add-task button (`handle_add_task_button`). -/
def handle_add_task_button (u : Int) (st : BotState) : BotState × Reply :=
  ({ st with pending_tasks := popm st.pending_tasks u,
             user_states := setm st.user_states u .waiting_for_task },
   .enterText)

/-- `/list` (`cmd_list`): clears both per-user entries, then lists. -/
def cmd_list (u : Int) (st : BotState) : BotState × Reply :=
  let st' := { st with user_states := popm st.user_states u,
                       pending_tasks := popm st.pending_tasks u }
  let tasks := get_tasks u st.db
  (st', if tasks = [] then .noTasks else .taskList tasks)

/-- The task-list button (`handle_list_button`): clears both entries and
delegates to `cmd_list`. -/
def handle_list_button (u : Int) (st : BotState) : BotState × Reply :=
  cmd_list u { st with user_states := popm st.user_states u,
                       pending_tasks := popm st.pending_tasks u }

/-- `/edit` (`cmd_edit`): clears both per-user entries, then shows the
per-task edit keyboard. -/
def cmd_edit (u : Int) (st : BotState) : BotState × Reply :=
  let st' := { st with user_states := popm st.user_states u,
                       pending_tasks := popm st.pending_tasks u }
  let tasks := get_tasks u st.db
  (st', if tasks = [] then .noTasksEdit else .editList tasks)

/-- The edit button (`handle_edit_button`). -/
def handle_edit_button (u : Int) (st : BotState) : BotState × Reply :=
  cmd_edit u { st with user_states := popm st.user_states u,
                       pending_tasks := popm st.pending_tasks u }

/-- `/list_csv` (`cmd_list_csv`): clears both per-user entries, then
exports; file writing, sending and removal are external I/O. -/
def cmd_list_csv (u : Int) (st : BotState) : BotState × Reply :=
  let st' := { st with user_states := popm st.user_states u,
                       pending_tasks := popm st.pending_tasks u }
  let tasks := get_tasks u st.db
  (st', if tasks = [] then .noTasksExport else .csvSent)

/-- The export button (`handle_export_button`). -/
def handle_export_button (u : Int) (st : BotState) : BotState × Reply :=
  cmd_list_csv u { st with user_states := popm st.user_states u,
                           pending_tasks := popm st.pending_tasks u }

/-- The cancel button (`handle_cancel_button`): unconditionally removes
both per-user entries and confirms. -/
def handle_cancel_button (u : Int) (st : BotState) : BotState × Reply :=
  ({ st with user_states := popm st.user_states u,
             pending_tasks := popm st.pending_tasks u },
   .cancelled)

/-- Status-selection callback of the creation flow
(`process_new_task_status`).  The payload `new_task_status_<uid>_<status>`
is split on `"_"`; index 3 is the embedded user id, index 4 the chosen
status.  `none` models the uncaught `IndexError`/`ValueError` a malformed
payload raises before any state is touched. -/
def process_new_task_status (fromUser : Int) (data : String)
    (st : BotState) : Option (BotState × Reply) :=
  let parts := pySplit "_" data
  match parts.get? 3 with
  | none => none
  | some uidStr =>
    match pyInt? uidStr with
    | none => none
    | some user_id =>
      match parts.get? 4 with
      | none => none
      | some selected_status =>
        if fromUser ≠ user_id then some (st, .notYourTask)
        else
          match st.pending_tasks user_id with
          | none =>
              some ({ st with user_states := popm st.user_states user_id },
                    .textNotFound)
          | some task_text =>
              if task_text = "" then
                some ({ st with user_states := popm st.user_states user_id },
                      .textNotFound)
              else
                some
                  ({ st with
                      user_states := setm st.user_states user_id
                                       (.draftReady selected_status task_text) },
                   .chooseCategory selected_status)

/-- Category-selection callback of the creation flow
(`process_new_task_category`): same payload decoding; on success the draft
is persisted through `add_task` and both per-user entries are removed. -/
def process_new_task_category (fromUser : Int) (data : String)
    (created_at : String) (st : BotState) : Option (BotState × Reply) :=
  let parts := pySplit "_" data
  match parts.get? 3 with
  | none => none
  | some uidStr =>
    match pyInt? uidStr with
    | none => none
    | some user_id =>
      match parts.get? 4 with
      | none => none
      | some selected_category =>
        if fromUser ≠ user_id then some (st, .notYourTask)
        else
          match st.user_states user_id with
          | some (.draftReady selected_status task_text) =>
              some ({ st with
                        user_states := popm st.user_states user_id,
                        pending_tasks := popm st.pending_tasks user_id,
                        db := add_task task_text user_id selected_status
                                selected_category created_at st.db },
                    .taskAdded task_text selected_status selected_category)
          | _ =>
              some ({ st with user_states := popm st.user_states user_id,
                              pending_tasks := popm st.pending_tasks user_id },
                    .dataNotFound)

/-- The spec's conversation stages. -/
inductive Stage where
  | idle
  | awaiting_task_text
  | selecting_status
  | selecting_category
deriving DecidableEq, Repr

/-- The stage a user is in: `idle` when `user_states` has no entry for the
user, otherwise the stage the stored value denotes (the draft dict means a
status has been chosen and the category selection is pending). -/
def stage (st : BotState) (u : Int) : Stage :=
  match st.user_states u with
  | none => .idle
  | some .waiting_for_task => .awaiting_task_text
  | some .selecting_status => .selecting_status
  | some (.draftReady _ _) => .selecting_category

end VpB06

namespace PdfGen

open VpB06 (isPySpace pyStripL pyStrip parseDigits parseDigitsAux splitSepF)

/-! ### Exact rational arithmetic that the kernel can evaluate

`Rat`'s normalization is not kernel-reducible, so the IEEE binary64 model
below computes on unnormalized integer fractions with a positive
denominator and is read back into `ℚ` through `Q.toRat` for the theorem
statements. -/

/-- An unnormalized fraction `num / den`; every constructor below keeps
`den` positive. -/
structure Q where
  num : Int
  den : Int
deriving DecidableEq, Repr

/-- Build a fraction, moving the sign to the numerator. -/
def mkQ (n d : Int) : Q := if d < 0 then ⟨-n, -d⟩ else ⟨n, d⟩

def Q.ofInt (n : Int) : Q := ⟨n, 1⟩

def Q.mul (x y : Q) : Q := mkQ (x.num * y.num) (x.den * y.den)

def Q.add (x y : Q) : Q := mkQ (x.num * y.den + y.num * x.den) (x.den * y.den)

def Q.sub (x y : Q) : Q := mkQ (x.num * y.den - y.num * x.den) (x.den * y.den)

def Q.div (x y : Q) : Q := mkQ (x.num * y.den) (x.den * y.num)

def Q.neg (x : Q) : Q := ⟨-x.num, x.den⟩

/-- Absolute value (valid for the positive-denominator representation). -/
def Q.qabs (x : Q) : Q := ⟨if x.num < 0 then -x.num else x.num, x.den⟩

/-- Strict order by cross multiplication (valid for positive denominators). -/
def Q.blt (x y : Q) : Bool := x.num * y.den < y.num * x.den

def Q.ble (x y : Q) : Bool := x.num * y.den ≤ y.num * x.den

/-- Floor (valid for a positive denominator). -/
def Q.floor (x : Q) : Int := x.num.fdiv x.den

/-- The rational a fraction denotes. -/
def Q.toRat (x : Q) : ℚ := (x.num : ℚ) / (x.den : ℚ)

/-! ### IEEE binary64, modelled exactly

A finite double is a rational `m * 2 ^ (e - 52)` with `m < 2 ^ 53`;
rounding a real to the nearest double (ties to even) is an exact function
on rationals.  The model covers the normal range, which is all the
pipeline under verification ever touches. -/

/-- Round to the nearest integer, ties to even (the IEEE default mode). -/
def roundTiesEven (q : Q) : Int :=
  let z := q.floor
  let f := q.sub (Q.ofInt z)
  if f.blt ⟨1, 2⟩ then z
  else if (⟨1, 2⟩ : Q).blt f then z + 1
  else if z % 2 == 0 then z else z + 1

/-- Floor of log2 for `q ≥ 1` (fuel-driven halving). -/
def ilog2up : Nat → Q → Int
  | 0, _ => 0
  | fuel + 1, q =>
      if q.blt (Q.ofInt 2) then 0 else ilog2up fuel (q.div (Q.ofInt 2)) + 1

/-- Floor of log2 for `0 < q < 1` (fuel-driven doubling). -/
def ilog2down : Nat → Q → Int
  | 0, _ => 0
  | fuel + 1, q =>
      if (Q.ofInt 1).ble q then 0 else ilog2down fuel (q.mul (Q.ofInt 2)) - 1

/-- Floor of log2 of a positive fraction; fuel 4200 covers far beyond the
binary64 exponent range. -/
def ilog2 (q : Q) : Int :=
  if (Q.ofInt 1).ble q then ilog2up 4200 q else ilog2down 4200 q

/-- Multiply by `2 ^ k` for a signed `k`. -/
def scaleByPow2 (q : Q) (k : Int) : Q :=
  if 0 ≤ k then q.mul ⟨(2 : Int) ^ k.toNat, 1⟩
  else ⟨q.num, q.den * (2 : Int) ^ (-k).toNat⟩

/-- Round a real (given as an exact fraction) to the nearest IEEE binary64
double, ties to even; the result is the double's exact value. -/
def toD (q : Q) : Q :=
  if q.num == 0 then Q.ofInt 0
  else
    let a := q.qabs
    let e := ilog2 a
    let m := roundTiesEven (scaleByPow2 a (52 - e))
    let r := scaleByPow2 (Q.ofInt m) (e - 52)
    if q.num < 0 then r.neg else r

/-- Double multiplication: exact product, then one rounding. -/
def fpMul (x y : Q) : Q := toD (x.mul y)

/-- Double addition: exact sum, then one rounding. -/
def fpAdd (x y : Q) : Q := toD (x.add y)

/-- Double subtraction: exact difference, then one rounding. -/
def fpSub (x y : Q) : Q := toD (x.sub y)

/-! ### Decimal formatting helpers (`f"{n:,}"`, `f"{n:02d}"`, `str`) -/

/-- Decimal digits of `n`, most significant first (fuel-driven). -/
def decReprAux : Nat → Nat → List Char
  | 0, _ => []
  | fuel + 1, n =>
      if n < 10 then [Char.ofNat (48 + n)]
      else decReprAux fuel (n / 10) ++ [Char.ofNat (48 + n % 10)]

/-- Decimal representation of a natural number, as Python formats it. -/
def decRepr (n : Nat) : List Char := decReprAux (n + 1) n

/-- Group a reversed digit list into blocks of three (fuel-driven). -/
def chunk3F : Nat → List Char → List (List Char)
  | 0, l => [l]
  | fuel + 1, l =>
      match l with
      | a :: b :: c :: rest =>
          if rest.isEmpty then [[a, b, c]] else [a, b, c] :: chunk3F fuel rest
      | l => [l]

/-- Thousands grouping of a digit string with spaces:
`f"{n:,}".replace(',', ' ')`. -/
def group3 (digits : List Char) : List Char :=
  List.intercalate [' ']
    (((chunk3F digits.length digits.reverse).map List.reverse).reverse)

/-- Python `f"{z:02d}"` for the small nonnegative values the formatter
produces (zero-pad to two digits). -/
def pad2 (z : Int) : String :=
  if z < 0 then "-" ++ (⟨decRepr (-z).toNat⟩ : String)
  else if z < 10 then "0" ++ (⟨decRepr z.toNat⟩ : String)
  else (⟨decRepr z.toNat⟩ : String)

/-- Python `int(float)`: truncation toward zero. -/
def pyTrunc (q : Q) : Int :=
  if (Q.ofInt 0).ble q then q.floor else -((q.neg).floor)

/-! ### The financial block of `calculate_fields` -/

/-- Clean-up of the `price` field: `strip`, drop `' '`, `','` to `'.'`,
then `re.sub(r'[^\d.]', '', ...)`. -/
def cleanPrice (s : String) : List Char :=
  (((pyStripL s.data).filter (fun c => c != ' ')).map
      (fun c => if c = ',' then '.' else c)).filter
    (fun c => c.isDigit || c == '.')

/-- Clean-up of the `qty` field: `strip` then `re.sub(r'[^\d]', '', ...)`. -/
def cleanQty (s : String) : List Char :=
  (pyStripL s.data).filter Char.isDigit

/-- Python `float(s)` on a cleaned digits-and-dots string: the decimal
value, correctly rounded to binary64; `none` models `ValueError`. -/
def pyFloat? (l : List Char) : Option Q :=
  match splitSepF ['.'] (l.length + 1) l with
  | [ip] => (parseDigits ip).map (fun n => toD (Q.ofInt n))
  | [ip, fp] =>
      if ip.isEmpty && fp.isEmpty then none
      else
        match parseDigitsAux 0 ip, parseDigitsAux 0 fp with
        | some a, some b =>
            some (toD ((Q.ofInt a).add
              ((Q.ofInt b).div ⟨(10 : Int) ^ fp.length, 1⟩)))
        | _, _ => none
  | _ => none

/-- Result of the financial block: the three formatted strings, plus — on
the non-exception path — the exact binary64 values of
`price`, `qty`, `subtotal`, `vat`, `total` stored under the
`*_numeric` keys (`str()` display is glue). -/
structure FinFields where
  subtotal : String
  vat : String
  total : String
  nums : Option (Q × Int × Q × Q × Q)
deriving DecidableEq, Repr

/-- `format_currency` from `calculate_fields`: `round(value, 2)`, split
into integer part (`int(value)`) and fractional part
(`int(round((value - integer_part) * 100))`), thousands grouped with
spaces and a comma before the two fraction digits. -/
def format_currency (value : Q) : String :=
  let v := toD ((Q.ofInt (roundTiesEven (value.mul (Q.ofInt 100)))).div
    (Q.ofInt 100))
  let integer_part := pyTrunc v
  let fractional_part := roundTiesEven
    ((fpSub v (toD (Q.ofInt integer_part))).mul (toD (Q.ofInt 100)))
  let integer_str : String :=
    if integer_part < 0 then
      "-" ++ (⟨group3 (decRepr (-integer_part).toNat)⟩ : String)
    else (⟨group3 (decRepr integer_part.toNat)⟩ : String)
  integer_str ++ "," ++ pad2 fractional_part

/-- The financial block of `calculate_fields` in `pdf_generator.py`,
applied to the `price` and `qty` fields of a row (copying the row and the
metadata fields is glue).  The literal `0.2` of the source denotes the
double nearest `1/5`; all arithmetic is binary64.  A `float()` failure
raises `ValueError`, caught by the surrounding `except`, which stores the
three literal `"0,00"` strings and no numeric keys. -/
def calculate_fields (price_field qty_field : String) : FinFields :=
  let price_str := cleanPrice price_field
  let qty_str := cleanQty qty_field
  match if price_str.isEmpty then some (Q.ofInt 0) else pyFloat? price_str with
  | none => { subtotal := "0,00", vat := "0,00", total := "0,00", nums := none }
  | some price =>
      let qty : Int := if qty_str.isEmpty then 0
        else ((parseDigitsAux 0 qty_str).getD 0 : Int)
      let subtotal := fpMul price (toD (Q.ofInt qty))
      let vat := fpMul subtotal (toD ((Q.ofInt 1).div (Q.ofInt 5)))
      let total := fpAdd subtotal vat
      { subtotal := format_currency subtotal,
        vat := format_currency vat,
        total := format_currency total,
        nums := some (price, qty, subtotal, vat, total) }


/-! ### Template substitution (`substitute_template`) -/

/-- Fuel-driven Python `s.replace(old, new)`: replace every non-overlapping
occurrence of `old`, left to right, never rescanning `new`. -/
def replaceAllF (old new : List Char) : Nat → List Char → List Char
  | 0, s => s
  | fuel + 1, s =>
      match s with
      | [] => []
      | c :: rest =>
          if old.isPrefixOf (c :: rest) && !old.isEmpty then
            new ++ replaceAllF old new fuel ((c :: rest).drop old.length)
          else c :: replaceAllF old new fuel rest

/-- Python `s.replace(old, new)`. -/
def pyReplaceAll (old new s : String) : String :=
  ⟨replaceAllF old.data new.data s.data.length s.data⟩

/-- Python `pat in s` (substring containment). -/
def containsSubF : List Char → List Char → Bool
  | pat, [] => pat.isEmpty
  | pat, c :: rest => pat.isPrefixOf (c :: rest) || containsSubF pat rest

/-- Python `pat in s`. -/
def pyContains (pat s : String) : Bool := containsSubF pat.data s.data

/-- Captured groups of `re.findall(r'\{\{([^}]+)\}\}', s)`: two opening
braces, a nonempty run without a closing brace, two closing braces; on a
failed attempt the scan advances one character, on a match it resumes
after the match. -/
def findDoubleF : Nat → List Char → List (List Char)
  | 0, _ => []
  | fuel + 1, s =>
      match s with
      | '\x7b' :: '\x7b' :: rest =>
          let run := rest.takeWhile (fun c => c != '\x7d')
          if run.isEmpty then findDoubleF fuel ('\x7b' :: rest)
          else
            match rest.drop run.length with
            | '\x7d' :: '\x7d' :: tail => run :: findDoubleF fuel tail
            | _ => findDoubleF fuel ('\x7b' :: rest)
      | _ :: rest => findDoubleF fuel rest
      | [] => []

/-- Captured groups of `re.findall(r'\{([^}]+)\}', s)`. -/
def findSingleF : Nat → List Char → List (List Char)
  | 0, _ => []
  | fuel + 1, s =>
      match s with
      | '\x7b' :: rest =>
          let run := rest.takeWhile (fun c => c != '\x7d')
          if run.isEmpty then findSingleF fuel rest
          else
            match rest.drop run.length with
            | '\x7d' :: tail => run :: findSingleF fuel tail
            | _ => findSingleF fuel rest
      | _ :: rest => findSingleF fuel rest
      | [] => []

/-- A template data mapping: insertion-ordered keys, values already
stringified by `str()` except for `None`, kept as `none`. -/
abbrev Data := List (String × Option String)

/-- Python `'' if value is None else str(value)`. -/
def strOfVal (v : Option String) : String := v.getD ""

/-- Python `key in data`. -/
def hasKey (d : Data) (k : String) : Bool := d.any (fun kv => kv.1 == k)

/-- First pass of `substitute_template`: replace `{{key}}` for every key. -/
def passDouble (d : Data) (t : String) : String :=
  d.foldl (fun acc kv =>
    let ph := "\x7b\x7b" ++ kv.1 ++ "\x7d\x7d"
    if pyContains ph acc then pyReplaceAll ph (strOfVal kv.2) acc else acc) t

/-- Second pass of `substitute_template`: replace `{key}` for every key. -/
def passSingle (d : Data) (t : String) : String :=
  d.foldl (fun acc kv =>
    let ph := "\x7b" ++ kv.1 ++ "\x7d"
    if pyContains ph acc then pyReplaceAll ph (strOfVal kv.2) acc else acc) t

/-- Third pass: every `{{...}}` group found in the current result whose
inner text is not a data key is replaced (everywhere) by the empty
string. -/
def cleanupDouble (d : Data) (t : String) : String :=
  (findDoubleF t.data.length t.data).foldl (fun acc run =>
    if hasKey d ⟨run⟩ then acc
    else pyReplaceAll ("\x7b\x7b" ++ (⟨run⟩ : String) ++ "\x7d\x7d") "" acc) t

/-- Fourth pass: every `{...}` group whose inner text is not a data key
and does not strip to the empty string is replaced by the empty string. -/
def cleanupSingle (d : Data) (t : String) : String :=
  (findSingleF t.data.length t.data).foldl (fun acc run =>
    if !hasKey d ⟨run⟩ && !(pyStripL run).isEmpty then
      pyReplaceAll ("\x7b" ++ (⟨run⟩ : String) ++ "\x7d") "" acc
    else acc) t

/-- `substitute_template(template, data)` from `pdf_generator.py`: the two
substitution passes followed by the two cleanup passes. -/
def substitute_template (template : String) (d : Data) : String :=
  cleanupSingle d (cleanupDouble d (passSingle d (passDouble d template)))

/-! ### Batch output filenames (`main`) -/

/-- Characters Windows forbids in filenames, as listed in `main`. -/
def invalid_chars : List Char :=
  ['<', '>', ':', '"', '/', '\\', '|', '?', '*']

/-- Fuel-driven `re.sub(r'\s+', ' ', s)`: collapse every whitespace run to
a single space. -/
def collapseWsF : Nat → List Char → List Char
  | 0, l => l
  | fuel + 1, l =>
      match l with
      | [] => []
      | c :: rest =>
          if isPySpace c then ' ' :: collapseWsF fuel (rest.dropWhile isPySpace)
          else c :: collapseWsF fuel rest

/-- Sanitized base name for the row at 1-based index `idx`: first field
value (or `record_<idx>` for an empty row), invalid characters replaced by
underscores, whitespace collapsed and stripped, truncated to 200
characters, falling back to `record_<idx>` when empty. -/
def fileBase (firstField : Option String) (idx : Nat) : List Char :=
  let base0 : List Char :=
    match firstField with
    | some v => v.data
    | none => "record_".data ++ decRepr idx
  let b1 := base0.map (fun c => if c ∈ invalid_chars then '_' else c)
  let b2 := pyStripL (collapseWsF b1.length b1)
  let b3 := if 200 < b2.length then b2.take 200 else b2
  if b3.isEmpty then "record_".data ++ decRepr idx else b3

/-- The output filename `f"{filename_base}_{idx}.pdf"` of the batch loop. -/
def makeFilename (firstField : Option String) (idx : Nat) : String :=
  ⟨fileBase firstField idx ++ '_' :: (decRepr idx ++ ".pdf".data)⟩

/-- Value of a digit string (used to reason about `decRepr`). -/
def parseDec (l : List Char) : Nat :=
  l.foldl (fun a c => 10 * a + (c.toNat - 48)) 0

end PdfGen

namespace VpB06

theorem runAdds_rows (evs : List AddEv) :
    ∀ db : DB, (runAdds evs db).rows = db.rows ++ buildRows db.nextId evs := by
  induction evs with
  | nil => intro db; simp [runAdds, buildRows]
  | cons e es ih =>
      intro db
      have h := ih (add_task e.text e.user e.status e.category e.created_at db)
      simp only [runAdds, List.foldl_cons] at h ⊢
      rw [h]
      simp [add_task, buildRows, mkTask]

theorem buildRows_id_lb (evs : List AddEv) :
    ∀ n : Nat, ∀ r ∈ buildRows n evs, n ≤ r.id := by
  induction evs with
  | nil => intro n r hr; simp [buildRows] at hr
  | cons e es ih =>
      intro n r hr
      simp only [buildRows, List.mem_cons] at hr
      rcases hr with h | h
      · subst h; simp [mkTask]
      · exact Nat.le_of_succ_le (ih (n + 1) r h)

theorem buildRows_sorted (evs : List AddEv) :
    ∀ n : Nat, (buildRows n evs).Pairwise (fun a b => a.id < b.id) := by
  induction evs with
  | nil => intro n; simp [buildRows]
  | cons e es ih =>
      intro n
      simp only [buildRows]
      refine List.Pairwise.cons ?_ (ih (n + 1))
      intro r hr
      have := buildRows_id_lb es (n + 1) r hr
      simp [mkTask]
      omega

theorem sortById_of_sorted :
    ∀ l : List Task, l.Pairwise (fun a b => a.id < b.id) → sortById l = l := by
  intro l hl
  induction l with
  | nil => rfl
  | cons t rest ih =>
      have hrest := (List.pairwise_cons.mp hl).2
      have hhead := (List.pairwise_cons.mp hl).1
      simp only [sortById, ih hrest]
      cases rest with
      | nil => rfl
      | cons s rs =>
          have : t.id ≤ s.id := Nat.le_of_lt (hhead s (by simp))
          simp [insertById, this]

theorem filter_buildRows_map (owner : Int) (evs : List AddEv) :
    ∀ n : Nat,
      ((buildRows n evs).filter (fun r => r.user == owner)).map projTask
        = (evs.filter (fun e => e.user == owner)).map projEv := by
  induction evs with
  | nil => intro n; simp [buildRows]
  | cons e es ih =>
      intro n
      simp only [buildRows, List.filter_cons]
      by_cases h : e.user = owner
      · simp only [mkTask, h]
        simp [List.filter_cons, ih (n + 1), projTask, projEv, mkTask, h]
      · have h1 : ((mkTask n e).user == owner) = false := by
          simp [mkTask, h]
        have h2 : (e.user == owner) = false := by simp [h]
        simp [h1, h2, ih (n + 1)]

theorem get_tasks_runAdds (evs : List AddEv) (owner : Int) :
    get_tasks owner (runAdds evs emptyDB)
      = (buildRows 1 evs).filter (fun r => r.user == owner) := by
  have hrows : (runAdds evs emptyDB).rows = buildRows 1 evs := by
    have := runAdds_rows evs emptyDB
    simpa [emptyDB] using this
  have hsorted : ((buildRows 1 evs).filter (fun r => r.user == owner)).Pairwise
      (fun a b => a.id < b.id) :=
    (buildRows_sorted evs 1).filter _
  simp only [get_tasks, hrows]
  exact sortById_of_sorted _ hsorted

end VpB06

namespace VpB06

theorem find?_update_map (i : Nat) (u : Int) (g : Task → Task)
    (hg : ∀ x, (g x).id = x.id ∧ (g x).user = x.user) :
    ∀ (l : List Task) (r : Task),
      l.find? (fun x => x.id == i && x.user == u) = some r →
      (l.map (fun x => if x.id == i && x.user == u then g x else x)).find?
          (fun x => x.id == i && x.user == u) = some (g r) := by
  intro l
  induction l with
  | nil => intro r h; simp at h
  | cons a rest ih =>
      intro r h
      rw [List.find?_cons] at h
      by_cases ha : (a.id == i && a.user == u) = true
      · simp only [ha] at h
        injection h with h
        subst h
        have hga : ((g a).id == i && (g a).user == u) = true := by
          rcases hg a with ⟨h1, h2⟩
          rw [h1, h2]; exact ha
        simp only [List.map_cons, ha, if_true, List.find?_cons, hga]
      · have ha' : (a.id == i && a.user == u) = false :=
          Bool.eq_false_iff.mpr ha
        simp only [ha'] at h
        have := ih r h
        simp only [List.map_cons, ha', Bool.false_eq_true, if_false,
          List.find?_cons]
        simpa [ha'] using this

/-- Claim C1: for a fixed owner, after any sequence of adds starting from
the fresh store, `get_tasks owner` returns exactly the records added for
that owner in insertion order (ascending id), never a record of a
different owner, and the empty list when nothing was added for the owner. -/
theorem get_tasks_exactly_owner_adds (evs : List AddEv) (owner : Int) :
    ((get_tasks owner (runAdds evs emptyDB)).map projTask
        = (evs.filter (fun e => e.user == owner)).map projEv)
    ∧ (get_tasks owner (runAdds evs emptyDB)).Pairwise (fun a b => a.id < b.id)
    ∧ (∀ r ∈ get_tasks owner (runAdds evs emptyDB), r.user = owner)
    ∧ ((evs.filter (fun e => e.user == owner)) = [] →
        get_tasks owner (runAdds evs emptyDB) = []) := by
  have hG := get_tasks_runAdds evs owner
  refine ⟨?_, ?_, ?_, ?_⟩
  · rw [hG]; exact filter_buildRows_map owner evs 1
  · rw [hG]; exact (buildRows_sorted evs 1).filter _
  · rw [hG]
    intro r hr
    have := List.of_mem_filter hr
    simpa using this
  · intro hne
    rw [hG]
    have h1 := filter_buildRows_map owner evs 1
    rw [hne] at h1
    simpa using h1

theorem get_tasks_exactly_owner_adds_witness :
    get_tasks 99 (runAdds [⟨"a", 10, "Новый", "Неважная", "t0"⟩] emptyDB) = []
    ∧ (get_tasks 10 (runAdds [⟨"a", 10, "Новый", "Неважная", "t0"⟩] emptyDB)).map
        projTask = [("a", 10, "t0", "Новый", "Неважная")] :=
  ⟨(get_tasks_exactly_owner_adds [⟨"a", 10, "Новый", "Неважная", "t0"⟩] 99).2.2.2
      (by decide),
   ((get_tasks_exactly_owner_adds [⟨"a", 10, "Новый", "Неважная", "t0"⟩] 10).1).trans
      (by decide)⟩

/-- Claim C2: `get_task` returns `none` both when no row carries the
requested id and when every row carrying it belongs to a different owner;
the two outcomes are the same value, so the caller cannot distinguish a
non-existent id from another user's id. -/
theorem get_task_absent_indistinguishable (db : DB) (i : Nat) (u : Int) :
    ((∀ r ∈ db.rows, r.id ≠ i) → get_task i u db = none)
    ∧ ((∀ r ∈ db.rows, r.id = i → r.user ≠ u) → get_task i u db = none) := by
  constructor
  · intro h
    apply List.find?_eq_none.mpr
    intro r hr
    simp only [Bool.and_eq_true, beq_iff_eq, not_and]
    intro hid
    exact absurd hid (h r hr)
  · intro h
    apply List.find?_eq_none.mpr
    intro r hr
    simp only [Bool.and_eq_true, beq_iff_eq, not_and]
    intro hid
    exact h r hr hid

theorem get_task_absent_indistinguishable_witness :
    get_task 2 10 ⟨[⟨1, "a", 10, "t0", "Новый", "Неважная"⟩], 2⟩ = none
    ∧ get_task 1 99 ⟨[⟨1, "a", 10, "t0", "Новый", "Неважная"⟩], 2⟩ = none :=
  ⟨(get_task_absent_indistinguishable
      ⟨[⟨1, "a", 10, "t0", "Новый", "Неважная"⟩], 2⟩ 2 10).1 (by decide),
   (get_task_absent_indistinguishable
      ⟨[⟨1, "a", 10, "t0", "Новый", "Неважная"⟩], 2⟩ 1 99).2 (by decide)⟩

/-- Claim C3: updating the status of a stored `(id, owner)` record changes
only its status (symmetrically for category); supplying neither field is a
no-op; and an update on a mismatched `(id, owner)` pair leaves every record
unchanged, surfacing no error. -/
theorem update_task_frame (db : DB) (i : Nat) (u : Int) :
    (∀ r, get_task i u db = some r →
        (∀ S, get_task i u (update_task i u (some S) none db)
            = some { r with status := S })
        ∧ (∀ C, get_task i u (update_task i u none (some C) db)
            = some { r with category := C }))
    ∧ update_task i u none none db = db
    ∧ ((∀ x ∈ db.rows, ¬(x.id = i ∧ x.user = u)) →
        ∀ s c, update_task i u s c db = db) := by
  refine ⟨?_, ?_, ?_⟩
  · intro r hr
    constructor
    · intro S
      unfold update_task
      rw [if_neg (by simp)]
      exact find?_update_map i u
        (fun x => { x with status := (some S).getD x.status,
                           category := (none : Option String).getD x.category })
        (fun x => ⟨rfl, rfl⟩) db.rows r hr
    · intro C
      unfold update_task
      rw [if_neg (by simp)]
      exact find?_update_map i u
        (fun x => { x with status := (none : Option String).getD x.status,
                           category := (some C).getD x.category })
        (fun x => ⟨rfl, rfl⟩) db.rows r hr
  · simp [update_task]
  · intro hnone s c
    unfold update_task
    by_cases hb : s = none ∧ c = none
    · rw [if_pos hb]
    · rw [if_neg hb]
      have hmap : db.rows.map (fun x =>
          if x.id == i && x.user == u then
            { x with status := s.getD x.status, category := c.getD x.category }
          else x) = db.rows := by
        conv_rhs => rw [← List.map_id db.rows]
        apply List.map_congr_left
        intro x hx
        have hcond : (x.id == i && x.user == u) = false := by
          have := hnone x hx
          simp only [Bool.and_eq_false_iff, beq_eq_false_iff_ne]
          by_cases hxi : x.id = i
          · right; intro hxu; exact this ⟨hxi, hxu⟩
          · left; exact hxi
        simp [hcond]
      rw [hmap]

theorem update_task_frame_witness :
    get_task 1 10 (update_task 1 10 (some "Выполнена") none
        ⟨[⟨1, "a", 10, "t0", "Новый", "Неважная"⟩], 2⟩)
      = some ⟨1, "a", 10, "t0", "Выполнена", "Неважная"⟩
    ∧ update_task 3 10 (some "Выполнена") none
        ⟨[⟨1, "a", 10, "t0", "Новый", "Неважная"⟩], 2⟩
      = ⟨[⟨1, "a", 10, "t0", "Новый", "Неважная"⟩], 2⟩ :=
  ⟨(((update_task_frame ⟨[⟨1, "a", 10, "t0", "Новый", "Неважная"⟩], 2⟩ 1 10).1
      ⟨1, "a", 10, "t0", "Новый", "Неважная"⟩ (by decide)).1 "Выполнена").trans
      (by decide),
   (update_task_frame ⟨[⟨1, "a", 10, "t0", "Новый", "Неважная"⟩], 2⟩ 3 10).2.2
      (by decide) (some "Выполнена") none⟩

end VpB06

namespace VpB06

/-- Claim C4: a status-selection or category-selection callback of the
creation flow whose acting user differs from the user id embedded in the
payload is rejected with the user-visible notice, and the state — drafts,
stages, and the task store — is returned exactly as it was. -/
theorem creation_callback_rejects_foreign_user
    (fromUser uid : Int) (uidStrS uidStrC S C dataS dataC created : String)
    (st : BotState)
    (hS3 : (pySplit "_" dataS).get? 3 = some uidStrS)
    (hS4 : (pySplit "_" dataS).get? 4 = some S)
    (hSu : pyInt? uidStrS = some uid)
    (hC3 : (pySplit "_" dataC).get? 3 = some uidStrC)
    (hC4 : (pySplit "_" dataC).get? 4 = some C)
    (hCu : pyInt? uidStrC = some uid)
    (hne : fromUser ≠ uid) :
    process_new_task_status fromUser dataS st = some (st, .notYourTask)
    ∧ process_new_task_category fromUser dataC created st
        = some (st, .notYourTask) := by
  constructor
  · simp only [process_new_task_status, hS3, hSu, hS4]
    simp [hne]
  · simp only [process_new_task_category, hC3, hCu, hC4]
    simp [hne]

theorem creation_callback_rejects_foreign_user_witness :
    process_new_task_status 99 "new_task_status_7_Выполнена"
        ⟨fun _ => none, fun _ => none, emptyDB⟩
      = some (⟨fun _ => none, fun _ => none, emptyDB⟩, .notYourTask)
    ∧ process_new_task_category 99 "new_task_category_7_Важная" "t0"
        ⟨fun _ => none, fun _ => none, emptyDB⟩
      = some (⟨fun _ => none, fun _ => none, emptyDB⟩, .notYourTask) :=
  creation_callback_rejects_foreign_user 99 7 "7" "7" "Выполнена" "Важная"
    "new_task_status_7_Выполнена" "new_task_category_7_Важная" "t0"
    ⟨fun _ => none, fun _ => none, emptyDB⟩
    (by decide) (by decide) (by decide) (by decide) (by decide) (by decide)
    (by decide)

/-- Claim C5: from the idle state, an add-command carrying inline text `T`
followed by a status callback (value `S`, same user) and a category
callback (value `C`, same user) walks the stages
`selecting_status`, `selecting_category`, ends idle with both per-user
entries cleared, and appends exactly one record `(T, S, C)` for the user
to the store. -/
theorem creation_flow_adds_record
    (u : Int) (uidStrS uidStrC T S C msgText dataS dataC created : String)
    (st : BotState)
    (hidle : st.user_states u = none)
    (hT : extractAddText msgText = T) (hTne : T ≠ "")
    (hS3 : (pySplit "_" dataS).get? 3 = some uidStrS)
    (hS4 : (pySplit "_" dataS).get? 4 = some S)
    (hSu : pyInt? uidStrS = some u)
    (hC3 : (pySplit "_" dataC).get? 3 = some uidStrC)
    (hC4 : (pySplit "_" dataC).get? 4 = some C)
    (hCu : pyInt? uidStrC = some u) :
    ∃ st1 st2 st3 : BotState,
      cmd_add u msgText st = (st1, .chooseStatus T)
      ∧ process_new_task_status u dataS st1 = some (st2, .chooseCategory S)
      ∧ process_new_task_category u dataC created st2
          = some (st3, .taskAdded T S C)
      ∧ stage st u = .idle
      ∧ stage st1 u = .selecting_status
      ∧ stage st2 u = .selecting_category
      ∧ stage st3 u = .idle
      ∧ st3.user_states u = none
      ∧ st3.pending_tasks u = none
      ∧ st3.db.rows = st.db.rows ++
          [{ id := st.db.nextId, text := T, user := u, created_at := created,
             status := S, category := C }]
      ∧ st3.db.nextId = st.db.nextId + 1 := by
  refine ⟨{ st with pending_tasks := setm (popm st.pending_tasks u) u T,
                    user_states := setm st.user_states u .selecting_status },
          ?_, ?_, ?_, ?_, ?_, ?_⟩
  · exact { st with
      pending_tasks := setm (popm st.pending_tasks u) u T,
      user_states := setm (setm st.user_states u .selecting_status) u
        (.draftReady S T) }
  · exact { st with
      user_states := popm (setm (setm st.user_states u .selecting_status) u
        (.draftReady S T)) u,
      pending_tasks := popm (setm (popm st.pending_tasks u) u T) u,
      db := add_task T u S C created st.db }
  · simp only [cmd_add, hT]
    rw [if_neg hTne]
  · simp only [process_new_task_status, hS3, hSu, hS4]
    have hu : ¬ (u ≠ u) := fun hc => hc rfl
    rw [if_neg hu]
    simp [setm, hTne]
  · simp only [process_new_task_category, hC3, hCu, hC4]
    have hu : ¬ (u ≠ u) := fun hc => hc rfl
    rw [if_neg hu]
    simp [setm]
  · refine ⟨?_, ?_, ?_, ?_, ?_, ?_, ?_, ?_⟩
    · simp [stage, hidle]
    · simp [stage, setm]
    · simp [stage, setm]
    · simp [stage, popm]
    · simp [popm]
    · simp [popm]
    · simp [add_task]
    · simp [add_task]

theorem creation_flow_adds_record_witness :
    ∃ st1 st2 st3 : BotState,
      cmd_add 7 "/add buy milk" ⟨fun _ => none, fun _ => none, emptyDB⟩
        = (st1, .chooseStatus "buy milk")
      ∧ process_new_task_status 7 "new_task_status_7_Выполнена" st1
          = some (st2, .chooseCategory "Выполнена")
      ∧ process_new_task_category 7 "new_task_category_7_Важная" "t0" st2
          = some (st3, .taskAdded "buy milk" "Выполнена" "Важная")
      ∧ stage ⟨fun _ => none, fun _ => none, emptyDB⟩ 7 = .idle
      ∧ stage st1 7 = .selecting_status
      ∧ stage st2 7 = .selecting_category
      ∧ stage st3 7 = .idle
      ∧ st3.user_states 7 = none
      ∧ st3.pending_tasks 7 = none
      ∧ st3.db.rows = ([] : List Task) ++
          [{ id := 1, text := "buy milk", user := 7, created_at := "t0",
             status := "Выполнена", category := "Важная" }]
      ∧ st3.db.nextId = 1 + 1 :=
  creation_flow_adds_record 7 "7" "7" "buy milk" "Выполнена" "Важная"
    "/add buy milk" "new_task_status_7_Выполнена" "new_task_category_7_Важная"
    "t0" ⟨fun _ => none, fun _ => none, emptyDB⟩
    rfl (by decide) (by decide) (by decide) (by decide) (by decide)
    (by decide) (by decide) (by decide)

/-- Claim C6 (amended): the commands `/list`, `/edit`, `/list_csv` and the
list / edit / export buttons each discard any in-flight creation session:
afterwards the user's stage entry and draft entry are both removed and the
user is idle.  (`/start`, by contrast, leaves the session untouched — see
the counterexample.) -/
theorem unrelated_commands_discard_session (st : BotState) (u : Int) :
    ((cmd_list u st).1.user_states u = none
      ∧ (cmd_list u st).1.pending_tasks u = none
      ∧ stage (cmd_list u st).1 u = .idle)
    ∧ ((cmd_edit u st).1.user_states u = none
      ∧ (cmd_edit u st).1.pending_tasks u = none
      ∧ stage (cmd_edit u st).1 u = .idle)
    ∧ ((cmd_list_csv u st).1.user_states u = none
      ∧ (cmd_list_csv u st).1.pending_tasks u = none
      ∧ stage (cmd_list_csv u st).1 u = .idle)
    ∧ ((handle_list_button u st).1.user_states u = none
      ∧ (handle_list_button u st).1.pending_tasks u = none
      ∧ stage (handle_list_button u st).1 u = .idle)
    ∧ ((handle_edit_button u st).1.user_states u = none
      ∧ (handle_edit_button u st).1.pending_tasks u = none
      ∧ stage (handle_edit_button u st).1 u = .idle)
    ∧ ((handle_export_button u st).1.user_states u = none
      ∧ (handle_export_button u st).1.pending_tasks u = none
      ∧ stage (handle_export_button u st).1 u = .idle) := by
  refine ⟨⟨?_, ?_, ?_⟩, ⟨?_, ?_, ?_⟩, ⟨?_, ?_, ?_⟩, ⟨?_, ?_, ?_⟩,
    ⟨?_, ?_, ?_⟩, ⟨?_, ?_, ?_⟩⟩ <;>
    simp [cmd_list, cmd_edit, cmd_list_csv, handle_list_button,
      handle_edit_button, handle_export_button, stage, popm]

/-- Claim C6 is false as stated for `/start`: `cmd_start` clears neither
`user_states` nor `pending_tasks`, so a session observed when the start
command arrives survives it. -/
theorem cmd_start_keeps_session_counterexample :
    (cmd_start 1 ⟨fun v => if v = 1 then some .waiting_for_task else none,
                  fun v => if v = 1 then some "draft" else none,
                  emptyDB⟩).1.user_states 1 = some .waiting_for_task
    ∧ (cmd_start 1 ⟨fun v => if v = 1 then some .waiting_for_task else none,
                    fun v => if v = 1 then some "draft" else none,
                    emptyDB⟩).1.pending_tasks 1 = some "draft"
    ∧ ¬ ((cmd_start 1 ⟨fun v => if v = 1 then some .waiting_for_task else none,
                       fun v => if v = 1 then some "draft" else none,
                       emptyDB⟩).1.user_states 1 = none) := by
  refine ⟨rfl, rfl, ?_⟩
  intro h
  simp [cmd_start] at h

/-- Claim C10: the cancel button unconditionally removes both the stage
entry and the draft entry for the user — whatever the current stage or
draft — leaving the user idle, and adds nothing to the task store. -/
theorem cancel_clears_session (st : BotState) (u : Int) :
    (handle_cancel_button u st).1.user_states u = none
    ∧ (handle_cancel_button u st).1.pending_tasks u = none
    ∧ stage (handle_cancel_button u st).1 u = .idle
    ∧ (handle_cancel_button u st).1.db = st.db
    ∧ (handle_cancel_button u st).2 = .cancelled := by
  refine ⟨?_, ?_, ?_, ?_, ?_⟩ <;> simp [handle_cancel_button, stage, popm]

end VpB06

namespace PdfGen

theorem decReprAux_mem_digit :
    ∀ (fuel n : Nat) (c : Char), c ∈ decReprAux fuel n → c.isDigit = true := by
  intro fuel
  induction fuel with
  | zero => intro n c hc; simp [decReprAux] at hc
  | succ f ih =>
      intro n c hc
      simp only [decReprAux] at hc
      by_cases h : n < 10
      · rw [if_pos h] at hc
        simp only [List.mem_singleton] at hc
        subst hc
        interval_cases n <;> decide
      · rw [if_neg h] at hc
        rcases List.mem_append.mp hc with h1 | h1
        · exact ih _ _ h1
        · simp only [List.mem_singleton] at h1
          subst h1
          have h10 : n % 10 < 10 := Nat.mod_lt _ (by norm_num)
          generalize hgen : n % 10 = k at h10 ⊢
          interval_cases k <;> decide

theorem decRepr_no_underscore (n : Nat) : '_' ∉ decRepr n := by
  intro h
  have := decReprAux_mem_digit (n + 1) n '_' h
  exact absurd this (by decide)

theorem parseDec_append_digit (l : List Char) (c : Char) :
    parseDec (l ++ [c]) = 10 * parseDec l + (c.toNat - 48) := by
  simp [parseDec, List.foldl_append]

theorem decReprAux_roundtrip :
    ∀ (fuel n : Nat), n < 10 ^ fuel → parseDec (decReprAux fuel n) = n := by
  intro fuel
  induction fuel with
  | zero =>
      intro n hn
      have : n = 0 := by simpa using hn
      subst this
      decide
  | succ f ih =>
      intro n hn
      simp only [decReprAux]
      by_cases h : n < 10
      · rw [if_pos h]
        interval_cases n <;> decide
      · rw [if_neg h]
        rw [parseDec_append_digit]
        have hfuel : n / 10 < 10 ^ f := by
          have h10 : n < 10 ^ f * 10 := by rw [pow_succ] at hn; exact hn
          omega
        rw [ih _ hfuel]
        have h10 : n % 10 < 10 := Nat.mod_lt _ (by norm_num)
        have hchar : (Char.ofNat (48 + n % 10)).toNat - 48 = n % 10 := by
          generalize hgen : n % 10 = k at h10 ⊢
          interval_cases k <;> decide
        rw [hchar]
        omega

theorem decRepr_roundtrip (n : Nat) : parseDec (decRepr n) = n :=
  decReprAux_roundtrip (n + 1) n
    (lt_of_lt_of_le (Nat.lt_pow_self (by norm_num) n)
      (Nat.pow_le_pow_right (by norm_num) (Nat.le_succ n)))

theorem decRepr_inj {m n : Nat} (h : decRepr m = decRepr n) : m = n := by
  have hm := decRepr_roundtrip m
  rw [h, decRepr_roundtrip n] at hm
  exact hm.symm

theorem append_sep_inj (c : Char) :
    ∀ (u1 : List Char) {v1 : List Char} (u2 : List Char) {v2 : List Char},
      c ∉ u1 → c ∉ u2 → u1 ++ c :: v1 = u2 ++ c :: v2 →
      u1 = u2 ∧ v1 = v2 := by
  intro u1
  induction u1 with
  | nil =>
      intro v1 u2 v2 h1 h2 heq
      cases u2 with
      | nil =>
          simp only [List.nil_append] at heq
          exact ⟨rfl, by injection heq⟩
      | cons d u2' =>
          simp only [List.nil_append, List.cons_append] at heq
          injection heq with hcd _
          exact absurd (hcd ▸ List.mem_cons_self d u2') h2
  | cons d u1' ih =>
      intro v1 u2 v2 h1 h2 heq
      cases u2 with
      | nil =>
          simp only [List.nil_append, List.cons_append] at heq
          injection heq with hcd _
          exact absurd (hcd.symm ▸ List.mem_cons_self d u1') h1
      | cons e u2' =>
          simp only [List.cons_append] at heq
          injection heq with hde htail
          have h1' : c ∉ u1' := fun hm => h1 (List.mem_cons_of_mem d hm)
          have h2' : c ∉ u2' := fun hm => h2 (List.mem_cons_of_mem e hm)
          obtain ⟨hu, hv⟩ := ih u2' h1' h2' htail
          exact ⟨by rw [hde, hu], hv⟩

theorem last_sep_suffix_eq (c : Char) (a b d1 d2 : List Char)
    (h1 : c ∉ d1) (h2 : c ∉ d2)
    (h : a ++ c :: d1 = b ++ c :: d2) : d1 = d2 := by
  have hrev : d1.reverse ++ c :: a.reverse = d2.reverse ++ c :: b.reverse := by
    have hr := congrArg List.reverse h
    simpa [List.reverse_append] using hr
  have h1' : c ∉ d1.reverse := by simpa using h1
  have h2' : c ∉ d2.reverse := by simpa using h2
  have hu := (append_sep_inj c d1.reverse d2.reverse h1' h2' hrev).1
  have := congrArg List.reverse hu
  simpa using this

/-- Claim C9: batch output filenames follow the sanitize-truncate-fallback
derivation embodied in `makeFilename`, and the `_{index}.pdf` suffix makes
the filenames of two distinct row indices distinct — whatever the two
rows' first fields are, in particular when their sanitized bases agree. -/
theorem batch_filenames_distinct (f1 f2 : Option String) (i j : Nat)
    (hij : i ≠ j) : makeFilename f1 i ≠ makeFilename f2 j := by
  intro h
  have hd : fileBase f1 i ++ '_' :: (decRepr i ++ ".pdf".data)
      = fileBase f2 j ++ '_' :: (decRepr j ++ ".pdf".data) :=
    congrArg String.data h
  have hni : '_' ∉ decRepr i ++ ".pdf".data := by
    intro hmem
    rcases List.mem_append.mp hmem with hm | hm
    · exact decRepr_no_underscore i hm
    · exact absurd hm (by decide)
  have hnj : '_' ∉ decRepr j ++ ".pdf".data := by
    intro hmem
    rcases List.mem_append.mp hmem with hm | hm
    · exact decRepr_no_underscore j hm
    · exact absurd hm (by decide)
  have hsuffix := last_sep_suffix_eq '_' _ _ _ _ hni hnj hd
  have hlen : (decRepr i).length = (decRepr j).length := by
    have hl := congrArg List.length hsuffix
    simp only [List.length_append] at hl
    omega
  have hrepr := (List.append_inj hsuffix hlen).1
  exact hij (decRepr_inj hrepr)

theorem batch_filenames_distinct_witness :
    (1 : Nat) ≠ 2 ∧ makeFilename (some "a") 1 ≠ makeFilename (some "a") 2 :=
  ⟨by decide, batch_filenames_distinct (some "a") (some "a") 1 2 (by decide)⟩

/-- Claim C7 is false as stated: the single-brace cleanup requires the
inner name to survive `str.strip()`, so the token `{ }` — whose inner name
is a space, not a known field key — is left in place instead of being
replaced by the empty string. -/
theorem substitute_whitespace_token_counterexample :
    substitute_template "\x7b \x7d" [] ≠ ""
    ∧ substitute_template "\x7b \x7d" [] = "\x7b \x7d" :=
  ⟨by decide, by decide⟩

/-- Claim C7 (amended): `substitute_template` replaces `{{key}}` then
`{key}` for every mapping key (`None` becoming the empty string), then
deletes every remaining `{{...}}` token with an unknown inner name and
every remaining `{...}` token whose inner name is unknown and does not
strip to the empty string; a single-brace token with whitespace-only inner
text is kept verbatim.  In particular the two examples of the claim hold. -/
theorem substitute_template_spec :
    substitute_template "Hello \x7b\x7bname\x7d\x7d, \x7bage\x7d"
        [("name", some "Ann"), ("age", some "30")] = "Hello Ann, 30"
    ∧ substitute_template "\x7b\x7bx\x7d\x7d" [] = ""
    ∧ substitute_template "\x7b\x7bmissing\x7d\x7d and \x7bgone\x7d" []
        = " and "
    ∧ substitute_template "\x7ba\x7d" [("a", none)] = ""
    ∧ substitute_template "\x7b \x7d" [] = "\x7b \x7d" :=
  ⟨by decide, by decide, by decide, by decide, by decide⟩

set_option maxRecDepth 1000000 in
/-- Claim C8 is false for `vat_numeric`: on the claimed row the binary64
product `3001.5 * 0.2` is `5280294641231463 / 2 ^ 43`, one ulp above the
double nearest `600.3` (`5280294641231462 / 2 ^ 43`), so `vat_numeric`
equals neither the value the literal `600.3` denotes nor the exact
rational `6003/10`. -/
theorem calculate_fields_vat_counterexample :
    (calculate_fields "1 000,50" "3").nums.map (fun x => x.2.2.2.1)
      = some (⟨5280294641231463, 8796093022208⟩ : Q)
    ∧ toD ⟨6003, 10⟩ = (⟨5280294641231462, 8796093022208⟩ : Q)
    ∧ Q.toRat ⟨5280294641231463, 8796093022208⟩
        ≠ Q.toRat ⟨5280294641231462, 8796093022208⟩
    ∧ Q.toRat ⟨5280294641231463, 8796093022208⟩ ≠ (6003 : ℚ) / 10 :=
  ⟨by decide, by decide, by norm_num [Q.toRat], by norm_num [Q.toRat]⟩

set_option maxRecDepth 1000000 in
/-- Claim C8 (amended): on the row `price = "1 000,50"`, `qty = "3"` the
code yields `subtotal_numeric = 3001.5` and `total_numeric = 3601.8`
(exactly the binary64 values those literals denote), formats the total as
`"3 601,80"`, but `vat_numeric` is the binary64 product
`600.3000000000001 = 5280294641231463 / 2 ^ 43`, not `600.3`, because
`0.2` is not exactly representable. -/
theorem calculate_fields_spec :
    calculate_fields "1 000,50" "3"
      = { subtotal := "3 001,50", vat := "600,30", total := "3 601,80",
          nums := some (⟨8800491068719104, 8796093022208⟩, 3,
            ⟨6600368301539328, 2199023255552⟩,
            ⟨5280294641231463, 8796093022208⟩,
            ⟨7920441961847194, 2199023255552⟩) }
    ∧ Q.toRat ⟨8800491068719104, 8796093022208⟩ = (2001 : ℚ) / 2
    ∧ toD ⟨6003, 2⟩ = (⟨6600368301539328, 2199023255552⟩ : Q)
    ∧ Q.toRat ⟨6600368301539328, 2199023255552⟩ = (6003 : ℚ) / 2
    ∧ toD ⟨18009, 5⟩ = (⟨7920441961847194, 2199023255552⟩ : Q)
    ∧ Q.toRat ⟨7920441961847194, 2199023255552⟩
        = (3960220980923597 : ℚ) / 1099511627776
    ∧ Q.toRat ⟨5280294641231463, 8796093022208⟩
        = (5280294641231463 : ℚ) / 8796093022208 :=
  ⟨by decide, by norm_num [Q.toRat], by decide, by norm_num [Q.toRat],
   by decide, by norm_num [Q.toRat], by norm_num [Q.toRat]⟩

end PdfGen
